import Mathlib

/-!
# Verification of the azul ORM relation layer

This file gives a shallow embedding, in Lean 4, of the relation layer of the
azul object-relational mapper: the belongs-to `joinCondition` and `prefetch`
mixins, the has-many `through` support (`init` and `_throughRelations`), and
the persistence-cascade / relation-cache behaviour exercised by the
one-to-many test suite.  Pure JavaScript functions are translated into Lean
functions; the mutable object graph of relations is represented by an
explicit environment mapping model and relation names to descriptors.
-/


/-- A JavaScript value as it appears in attribute slots: `undefined`, `null`,
or a concrete (integer) value.  Lodash's `_.isUndefined` and `_.isNull`
distinguish the first two, so the embedding keeps them distinct. -/
inductive JsVal where
  | vundef : JsVal
  | vnull : JsVal
  | vint : Int → JsVal
deriving DecidableEq, Repr

/-- Lodash `_.uniq`: keep the first occurrence of each element, preserving
order. -/
def uniq : List JsVal → List JsVal
  | [] => []
  | x :: xs => x :: uniq (xs.filter (fun y => y ≠ x))
termination_by l => l.length
decreasing_by
  simp only [List.length_cons]
  exact Nat.lt_succ_of_le (List.length_filter_le _ _)

/-- A model instance or fetched row: a bag of attributes.  `getAttribute`
on instances and `attrs[...]` subscripting on rows both read this map. -/
structure Obj where
  attr : String → JsVal

/-- The `instance.getAttribute(name)` accessor from the model layer. -/
def Obj.getAttribute (o : Obj) (name : String) : JsVal := o.attr name

/-- The value part of a single-key `where` object as built by
`_.object([[queryKey, fks]])`: either one plain value (equality) or an
array (used with a `[in]` key). -/
inductive WhereVal where
  | single : JsVal → WhereVal
  | list : List JsVal → WhereVal
deriving DecidableEq, Repr

/-- The single-key `where` object passed to `objects.where(...)`. -/
structure WhereClause where
  key : String
  val : WhereVal
deriving DecidableEq, Repr

/-- One step of lodash `_.groupBy`: append the element to the group of its
key, creating the group at the end if the key is new. -/
def groupByInsert (k : JsVal) (r : Obj) : List (JsVal × List Obj) → List (JsVal × List Obj)
  | [] => [(k, [r])]
  | (k', g) :: rest =>
    if k' = k then (k', g ++ [r]) :: rest else (k', g) :: groupByInsert k r rest

/-- Lodash `_.groupBy`: group a list by a key function, each group keeping
input order. -/
def groupBy (f : Obj → JsVal) (l : List Obj) : List (JsVal × List Obj) :=
  l.foldl (fun acc r => groupByInsert (f r) r acc) []

/-- The `grouped[fk] || []` lookup: look a key up in a grouped result, with `[]` as the
default for a missing key. -/
def groupLookup (g : List (JsVal × List Obj)) (k : JsVal) : List Obj :=
  ((g.find? (fun p => p.1 = k)).map (fun p => p.2)).getD []

/-- The distinct non-null, non-undefined foreign-key values of a batch,
computed exactly as in `prefetch`: map `getAttribute foreignKey`, `_.uniq`,
then reject `undefined` and reject `null`. -/
def prefetchFks (foreignKey : String) (instances : List Obj) : List JsVal :=
  ((uniq (instances.map (fun i => i.getAttribute foreignKey))).filter
      (fun v => v ≠ JsVal.vundef)).filter
    (fun v => v ≠ JsVal.vnull)

/-- The `where` object `prefetch` builds: the primary key with an equality
value when exactly one distinct foreign key remains, otherwise
`primaryKey ++ "[in]"` with the whole list. -/
def prefetchWhere (primaryKey : String) (fks : List JsVal) : WhereClause :=
  if fks.length = 1 then ⟨primaryKey, WhereVal.single (fks.headD JsVal.vundef)⟩
  else ⟨primaryKey ++ "[in]", WhereVal.list fks⟩

/-- The observable outcome of a `prefetch` call: the queries executed against
the store and the association performed for each owner instance (the
arguments handed to `associateFetchedObjects`). -/
structure PrefetchOutcome where
  queries : List WhereClause
  assignments : List (Obj × List Obj)

/-- The belongs-to `prefetch` mixin, embedded from the source: an empty batch
returns at once; otherwise the distinct non-null foreign keys are collected,
one query is executed (equality for a single key, `[in]` otherwise), the
related rows are grouped by their primary-key attribute, and every owner is
associated with the group matching its foreign key (or `[]`).  The store is
the function `exec` from a where clause to the returned rows. -/
def prefetch (primaryKey foreignKey : String) (exec : WhereClause → List Obj)
    (instances : List Obj) : PrefetchOutcome :=
  if instances.length = 0 then ⟨[], []⟩
  else
    let fks := prefetchFks foreignKey instances
    let w := prefetchWhere primaryKey fks
    let related := exec w
    let grouped := groupBy (fun item => item.attr primaryKey) related
    ⟨[w], instances.map (fun i =>
      (i, groupLookup grouped (i.getAttribute foreignKey)))⟩

/-- A concrete owner with foreign key 7, used to witness prefetch claims. -/
def wOwnerA : Obj := ⟨fun s => if s = "author_id" then JsVal.vint 7 else JsVal.vundef⟩

/-- A concrete owner with foreign key 9, used to witness prefetch claims. -/
def wOwnerB : Obj := ⟨fun s => if s = "author_id" then JsVal.vint 9 else JsVal.vundef⟩

/-- A concrete store returning a single user row with id 7. -/
def wStore : WhereClause → List Obj :=
  fun _ => [⟨fun s => if s = "id" then JsVal.vint 7 else JsVal.vundef⟩]

/-- The `BelongsTo#joinCondition` override from the joining mixin, embedded from the
source: `[baseTable, foreignKey].join('.')` and
`[joinTable, primaryKey].join('.')`, joined by `'='`. -/
def joinCondition (foreignKey primaryKey baseTable joinTable : String) : String :=
  (baseTable ++ "." ++ foreignKey) ++ "=" ++ (joinTable ++ "." ++ primaryKey)

/-- Split a character list on a separator character. -/
def splitChars (sep : Char) : List Char → List (List Char)
  | [] => [[]]
  | c :: cs =>
    let r := splitChars sep cs
    if c = sep then [] :: r
    else (c :: r.headD []) :: r.tail

/-- Split a string on a separator character. -/
def splitOnCharStr (sep : Char) (s : String) : List String :=
  (splitChars sep s.toList).map List.asString

/-- A belongs-to relation descriptor as needed by the query layer: its name,
the related model's table, and the foreign- and primary-key column pair. -/
structure BTRel where
  name : String
  relatedTable : String
  foreignKey : String
  primaryKey : String
deriving DecidableEq, Repr

/-- A model type as seen by the query layer: its table and its declared
belongs-to relations. -/
structure ModelEnv where
  table : String
  rels : List BTRel
deriving DecidableEq, Repr

/-- Look a relation up by name on the model. -/
def lookupRel (env : ModelEnv) (n : String) : Option BTRel :=
  env.rels.find? (fun r => r.name = n)

/-- One join of the query AST: joined table, alias, and the unrendered
join-condition string produced by `joinCondition`. -/
structure JoinSpec where
  table : String
  tblAlias : String
  cond : String
deriving DecidableEq, Repr

/-- Modelled from the spec: the query AST kept by the fluent query builder —
the ordered joins and the ordered `where` predicates (each a fully qualified,
quoted column reference plus its parameter value).  The builder operations
`join`/`where` below return new values, never mutating their input. -/
structure QueryAst where
  joins : List JoinSpec
  wheres : List (String × Int)
deriving DecidableEq, Repr

/-- The empty query over a model's table. -/
def emptyQuery : QueryAst := ⟨[], []⟩

/-- Quote an SQL identifier. -/
def quoteIdent (s : String) : String := "\"" ++ s ++ "\""

/-- Modelled from the spec: add the inner join for a named relation unless a
join under that alias is already present; the join condition is the
relation's `joinCondition` (embedded above from the belongs-to mixin) with
the base table and the relation name as alias. -/
def addJoin (env : ModelEnv) (q : QueryAst) (n : String) : QueryAst :=
  match lookupRel env n with
  | none => q
  | some rel =>
    if q.joins.any (fun j => j.tblAlias = n) then q
    else { q with joins := q.joins ++
        [⟨rel.relatedTable, n,
          joinCondition rel.foreignKey rel.primaryKey env.table n⟩] }

/-- Modelled from the spec: the explicit `join(name)` builder call. -/
def joinQ (env : ModelEnv) (q : QueryAst) (n : String) : QueryAst :=
  addJoin env q n

/-- Modelled from the spec: the `where({key: value})` builder call.  A key of
the form `relation.attribute` resolves against the relation: the join is
added automatically when missing, `pk` maps to the relation's primary-key
column, and the predicate is attached on the join alias.  An unqualified key
is attached on the base table. -/
def whereQ (env : ModelEnv) (q : QueryAst) (key : String) (v : Int) : QueryAst :=
  match splitOnCharStr '.' key with
  | [relName, attrName] =>
    (match lookupRel env relName with
     | none => q
     | some rel =>
       let q' := addJoin env q relName
       let col := if attrName = "pk" then rel.primaryKey else attrName
       { q' with wheres := q'.wheres ++
           [(quoteIdent relName ++ "." ++ quoteIdent col, v)] })
  | _ =>
    { q with wheres := q.wheres ++
        [(quoteIdent env.table ++ "." ++ quoteIdent key, v)] }

/-- Render a dotted, unquoted column path by quoting each component. -/
def renderDotted (s : String) : String :=
  String.intercalate "." ((splitOnCharStr '.' s).map quoteIdent)

/-- Render a `joinCondition` string: quote both dotted sides of the `=`. -/
def renderCond (c : String) : String :=
  String.intercalate " = " ((splitOnCharStr '=' c).map renderDotted)

/-- Modelled from the spec: the join portion of the compiled SQL, in
declaration order. -/
def joinSQL (q : QueryAst) : String :=
  String.join (q.joins.map (fun j =>
    " INNER JOIN " ++ quoteIdent j.table ++ " " ++ quoteIdent j.tblAlias ++
      " ON " ++ renderCond j.cond))

/-- Modelled from the spec: the `WHERE` portion of the compiled SQL, with a
positional placeholder per predicate. -/
def whereSQL (q : QueryAst) : String :=
  if q.wheres.isEmpty then ""
  else " WHERE " ++
    String.intercalate " AND " (q.wheres.map (fun p => p.1 ++ " = ?"))

/-- Modelled from the spec: compile a query to SQL text plus positional
parameters. -/
def compileSQL (env : ModelEnv) (q : QueryAst) : String × List Int :=
  ("SELECT * FROM " ++ quoteIdent env.table ++ joinSQL q ++ whereSQL q,
   q.wheres.map (fun p => p.2))

/-- The self-join `employee` model from the tests: a `manager` belongs-to
relation back onto the `employees` table with foreign key `manager_id` and
primary key `id`. -/
def employeeEnv : ModelEnv :=
  ⟨"employees", [⟨"manager", "employees", "manager_id", "id"⟩]⟩

/-- A related (foreign-key-holding) instance as the cascade sees it: its
primary key, its foreign-key attribute value, and its dirty flag. -/
structure Related where
  pk : Int
  fkVal : JsVal
  dirty : Bool
deriving DecidableEq, Repr

/-- Modelled from the spec: the in-flight change set for one
(owner, to-many relation) pairing — the pending `add` and `remove`
operations not yet confirmed persisted. -/
structure InFlight where
  add : List Related
  remove : List Related
deriving DecidableEq, Repr

/-- The owner instance of a to-many relation as the cascade sees it: primary
key, whether it has dirty attributes of its own, its persisted flag, the
optional in-flight change set, and the optional loaded collection cache. -/
structure Owner where
  pk : Int
  ownDirty : Bool
  persisted : Bool
  inFlight : Option InFlight
  cache : Option (List Related)
deriving DecidableEq, Repr

/-- An SQL write issued by the persistence cascade. -/
inductive Stmt where
  | insertOwner (table : String) (pk : Int)
  | updateOwner (table : String) (pk : Int)
  | fkUpdate (table fkCol : String) (fkVal : JsVal) (pk : Int)
  | updateRelated (table : String) (pk : Int)
deriving DecidableEq, Repr

/-- Render the foreign-key update of the cascade in the adapter's SQL shape
(for comparison against the SQL the test suite expects). -/
def Stmt.sql : Stmt → String × List JsVal
  | Stmt.insertOwner table pk =>
      ("INSERT INTO " ++ quoteIdent table, [JsVal.vint pk])
  | Stmt.updateOwner table pk =>
      ("UPDATE " ++ quoteIdent table ++ " WHERE " ++ quoteIdent "id" ++ " = ?",
       [JsVal.vint pk])
  | Stmt.fkUpdate table fkCol fkVal pk =>
      ("UPDATE " ++ quoteIdent table ++ " SET " ++ quoteIdent fkCol ++
        " = ? WHERE " ++ quoteIdent "id" ++ " = ?", [fkVal, JsVal.vint pk])
  | Stmt.updateRelated table pk =>
      ("UPDATE " ++ quoteIdent table ++ " WHERE " ++ quoteIdent "id" ++ " = ?",
       [JsVal.vint pk])

/-- The observable outcome of one `save()` call: success, the owner
afterwards, the post-states of the related instances the cascade touched,
and every statement handed to the store (accepted or rejected). -/
structure SaveResult where
  ok : Bool
  owner : Owner
  related : List Related
  executed : List Stmt
deriving DecidableEq, Repr

/-- Modelled from the spec: process the pending `add` entries of an
in-flight set — set the foreign key on each added instance and persist it,
one update per instance; stop at the first write the store rejects, leaving
the instance dirty and the rest untouched. -/
def attemptAdds (relTable fkCol : String) (store : Stmt → Bool)
    (ownerPk : Int) : List Related → Bool × List Related × List Stmt
  | [] => (true, [], [])
  | a :: rest =>
    let stmt := Stmt.fkUpdate relTable fkCol (JsVal.vint ownerPk) a.pk
    if store stmt then
      let r := attemptAdds relTable fkCol store ownerPk rest
      (r.1, { a with fkVal := JsVal.vint ownerPk, dirty := false } :: r.2.1,
       stmt :: r.2.2)
    else (false, a :: rest, [stmt])

/-- Modelled from the spec: process the pending `remove` entries — clear the
foreign key on each removed instance and persist it. -/
def attemptRemoves (relTable fkCol : String) (store : Stmt → Bool) :
    List Related → Bool × List Related × List Stmt
  | [] => (true, [], [])
  | a :: rest =>
    let stmt := Stmt.fkUpdate relTable fkCol JsVal.vundef a.pk
    if store stmt then
      let r := attemptRemoves relTable fkCol store rest
      (r.1, { a with fkVal := JsVal.vundef, dirty := false } :: r.2.1,
       stmt :: r.2.2)
    else (false, a :: rest, [stmt])

/-- Modelled from the spec: the relation part of the cascade, run after the
owner's own row write.  The in-flight set is cleared only once every one of
its operations succeeded; on any store rejection it is left intact on the
owner, so a retried `save()` re-attempts the still-pending operations. -/
def saveCascade (relTable fkCol : String) (store : Stmt → Bool) (o : Owner)
    (rowExecuted : List Stmt) : SaveResult :=
  match o.inFlight with
  | none => ⟨true, o, [], rowExecuted⟩
  | some infl =>
    let ra := attemptAdds relTable fkCol store o.pk infl.add
    if ra.1 then
      let rr := attemptRemoves relTable fkCol store infl.remove
      if rr.1 then
        ⟨true, { o with inFlight := none }, ra.2.1 ++ rr.2.1,
         rowExecuted ++ ra.2.2 ++ rr.2.2⟩
      else
        ⟨false, o, ra.2.1 ++ rr.2.1, rowExecuted ++ ra.2.2 ++ rr.2.2⟩
    else ⟨false, o, ra.2.1, rowExecuted ++ ra.2.2⟩

/-- Modelled from the spec: `save(instance)` for the owner of a to-many
relation.  A new instance is inserted; a persisted instance with dirty
attributes is updated; a clean persisted instance skips the row write
entirely; then pending in-flight operations are cascaded.  A rejected row
write fails the save with the owner's dirty state and in-flight set
unchanged. -/
def save (ownerTable relTable fkCol : String) (store : Stmt → Bool)
    (o : Owner) : SaveResult :=
  if ¬ o.persisted then
    let stmt := Stmt.insertOwner ownerTable o.pk
    if store stmt then
      saveCascade relTable fkCol store
        { o with persisted := true, ownDirty := false } [stmt]
    else ⟨false, o, [], [stmt]⟩
  else if o.ownDirty then
    let stmt := Stmt.updateOwner ownerTable o.pk
    if store stmt then
      saveCascade relTable fkCol store { o with ownDirty := false } [stmt]
    else ⟨false, o, [], [stmt]⟩
  else saveCascade relTable fkCol store o []

/-- Modelled from the spec: a direct `save()` on a single related instance
with no relation changes of its own — one row update when dirty, cleared
only when the store accepts the write. -/
def saveRelated (relTable : String) (store : Stmt → Bool) (r : Related) :
    Bool × Related × List Stmt :=
  if r.dirty then
    let stmt := Stmt.updateRelated relTable r.pk
    if store stmt then (true, { r with dirty := false }, [stmt])
    else (false, r, [stmt])
  else (true, r, [])

/-- The result of reading a to-many collection cache: either the StateError
raised synchronously when the relation was never loaded or mutated, or the
cached instances. -/
inductive ReadResult where
  | stateError (msg : String)
  | loaded (l : List Related)
deriving DecidableEq, Repr

/-- The observable outcome of a collection-cache read: the queries it issued
(always none — the read never silently queries) and its result. -/
structure CollectionRead where
  queries : List Stmt
  result : ReadResult
deriving DecidableEq, Repr

/-- Modelled from the spec: reading `author.articles` — a relation cache is
only readable once its loaded-state flag is set (by a fetch or a first
mutation); reading it earlier raises a StateError synchronously and never
triggers a query. -/
def readCollection (o : Owner) : CollectionRead :=
  match o.cache with
  | none => ⟨[], ReadResult.stateError "articles collection is not yet loaded"⟩
  | some l => ⟨[], ReadResult.loaded l⟩

/-- Modelled from the spec: `author.addArticle(article)` — the foreign key
is set on the added instance (making it dirty), the add is recorded in the
in-flight set, and the collection cache is lazily initialised to empty on a
first mutation before appending. -/
def addArticle (o : Owner) (a : Related) : Owner × Related :=
  let a' : Related := { a with fkVal := JsVal.vint o.pk, dirty := true }
  let infl := o.inFlight.getD ⟨[], []⟩
  ({ o with inFlight := some { infl with add := infl.add ++ [a'] },
            cache := some (o.cache.getD [] ++ [a']) }, a')

/-- Modelled from the spec: `author.createArticle(...)` — a fresh, unsaved
related instance is created and then added exactly as `addArticle` does. -/
def createArticle (o : Owner) (newPk : Int) : Owner × Related :=
  addArticle o ⟨newPk, JsVal.vundef, true⟩

/-- An observable event during `associate`/`disassociate`, as instrumented
by the test suite's spies: the `setAttribute` call on the
foreign-key-holding instance, the call into the inverse relation, and the
cache manipulations. -/
inductive AssocEv where
  | setAttribute (attrName : String) (v : JsVal)
  | inverseAssociate
  | inverseDisassociate
  | cacheSet
  | cacheClear
  | cacheAdd
  | cacheRemove
deriving DecidableEq, Repr

/-- Modelled from the spec: `BelongsTo#associate(owner, related)` — set the
owner's foreign key to the related primary key, cache the related instance,
then notify the inverse has-many. -/
def belongsToAssociateTrace (fkAttr : String) (relatedPk : JsVal) : List AssocEv :=
  [AssocEv.setAttribute fkAttr relatedPk, AssocEv.cacheSet,
   AssocEv.inverseAssociate]

/-- Modelled from the spec: `BelongsTo#disassociate(owner, related)` — clear
the owner's foreign key, clear the cached instance, then notify the inverse
has-many. -/
def belongsToDisassociateTrace (fkAttr : String) : List AssocEv :=
  [AssocEv.setAttribute fkAttr JsVal.vundef, AssocEv.cacheClear,
   AssocEv.inverseDisassociate]

/-- Modelled from the spec: `HasMany#associate(owner, related)` — set the
foreign key on the related (foreign-key-holding) instance first, notify the
inverse belongs-to, then add to the owner's cached collection. -/
def hasManyAssociateTrace (fkAttr : String) (ownerPk : JsVal) : List AssocEv :=
  [AssocEv.setAttribute fkAttr ownerPk, AssocEv.inverseAssociate,
   AssocEv.cacheAdd]

/-- Modelled from the spec: `HasMany#disassociate(owner, related)` — clear
the foreign key on the related instance first, notify the inverse
belongs-to, then remove from the owner's cached collection. -/
def hasManyDisassociateTrace (fkAttr : String) : List AssocEv :=
  [AssocEv.setAttribute fkAttr JsVal.vundef, AssocEv.inverseDisassociate,
   AssocEv.cacheRemove]

/-- Is the event the `setAttribute` call on the foreign-key holder? -/
def AssocEv.isSetAttr : AssocEv → Bool
  | AssocEv.setAttribute _ _ => true
  | _ => false

/-- Is the event the notification of the other side's relation? -/
def AssocEv.isInverseNotify : AssocEv → Bool
  | AssocEv.inverseAssociate => true
  | AssocEv.inverseDisassociate => true
  | _ => false

/-- The call-order property the tests instrument: `setAttribute` happens
exactly once, the inverse is notified exactly once, and the key is set
strictly before the inverse is notified. -/
def fkSetBeforeInverse (tr : List AssocEv) : Prop :=
  tr.countP (fun e => e.isSetAttr) = 1 ∧
  tr.countP (fun e => e.isInverseNotify) = 1 ∧
  tr.findIdx (fun e => e.isSetAttr) < tr.findIdx (fun e => e.isInverseNotify)

/-- The kind of a declared relation. -/
inductive RelKind where
  | hasMany
  | belongsTo
deriving DecidableEq, Repr

/-- The options object of a relation declaration, as read by the through
support: the `through` and `source` entries. -/
structure RelOptions where
  through : Option String
  source : Option String
deriving DecidableEq, Repr

/-- A relation descriptor of the through machinery: its kind, its name, the
name of the model class it is declared on, the name of its related model,
and its options. -/
structure RelDescr where
  kind : RelKind
  name : String
  modelClass : String
  relatedModel : String
  opts : RelOptions
deriving DecidableEq, Repr

/-- The mutable state of one model class as `init` sees it: the prototype
(keys of the form `name ++ "Relation"` holding relation descriptors) and
the declared attribute/property names. -/
structure ModelClassState where
  prototype : String → Option RelDescr
  properties : String → Bool

/-- The has-many relation `init` auto-declares for a `through` join table:
`hasMany()` with no arguments, named after the `through` option, its related
model inferred by singularizing the name. -/
def autoHasMany (sing : String → String) (modelName through : String) : RelDescr :=
  ⟨RelKind.hasMany, through, modelName, sing through, ⟨none, none⟩⟩

/-- The `HasMany#init` override (its through-specific part), embedded from the source:
when a `through` option is present but the declaring model has neither a
`through ++ "Relation"` prototype entry nor a property of that name, a
has-many relation named after `through` is added to the model class via
`reopen`. -/
def hasManyThroughInit (sing : String → String) (modelName : String)
    (opts : RelOptions) (m : ModelClassState) : ModelClassState :=
  match opts.through with
  | none => m
  | some t =>
    match m.prototype (t ++ "Relation") with
    | some _ => m
    | none =>
      if m.properties t then m
      else { m with prototype := fun k =>
          if k = t ++ "Relation" then some (autoHasMany sing modelName t)
          else m.prototype k }

/-- A concrete model-class state with no relations and no properties, used
to witness the auto-declaration claim. -/
def emptyModelClass : ModelClassState := ⟨fun _ => none, fun _ => false⟩

/-- The prototype lookup `relation._modelClass.__class__.prototype[key]`
across all model classes: a mapping from model name and prototype key to
the relation descriptor stored there. -/
def RelWorld : Type := String → String → Option RelDescr

/-- The `HasMany#_throughRelations` walk from the through mixin, embedded from the
source.  The JS `while (relation)` loop is given explicit fuel; `none`
models running out of fuel or the TypeError of reading `._options` off a
missing through relation.  `sourceName` is computed once, from the original
relation (`this._options.source || this._name`); `sing` is the inflection
`singularize` helper. -/
def throughRelationsAux (w : RelWorld) (sing : String → String)
    (sourceName : String) :
    Nat → RelDescr → List RelDescr → Option (List RelDescr)
  | 0, _, _ => none
  | Nat.succ fuel, relation, acc =>
    match relation.opts.through with
    | none => some (relation :: acc)
    | some t =>
      match w relation.modelClass (t ++ "Relation") with
      | none => none
      | some throughRelation =>
        if throughRelation.opts.through.isSome then
          throughRelationsAux w sing sourceName fuel throughRelation acc
        else
          let sourceModel := throughRelation.relatedModel
          let sourceRelation :=
            match w sourceModel (sourceName ++ "Relation") with
            | some r => some r
            | none => w sourceModel (sing sourceName ++ "Relation")
          match sourceRelation with
          | none => some (throughRelation :: acc)
          | some r =>
            throughRelationsAux w sing sourceName fuel r
              (throughRelation :: acc)

/-- The full `_throughRelations()` call: walk from the relation with the source
name `this._options.source || this._name` and an empty accumulator. -/
def throughRelations (w : RelWorld) (sing : String → String) (fuel : Nat)
    (relation : RelDescr) : Option (List RelDescr) :=
  throughRelationsAux w sing (relation.opts.source.getD relation.name)
    fuel relation []

/-- The `authors`-through-`reviews` relation of the witness world: declared
on `Book`, through the `reviews` join relation. -/
def wAuthorsRel : RelDescr :=
  ⟨RelKind.hasMany, "authors", "Book", "User", ⟨some "reviews", none⟩⟩

/-- The `reviews` relation of the witness world, the through hop. -/
def wReviewsRel : RelDescr :=
  ⟨RelKind.hasMany, "reviews", "Book", "Review", ⟨none, none⟩⟩

/-- The `author` relation on `Review` in the witness world: only findable
from the source name `authors` by singularizing. -/
def wAuthorRel : RelDescr :=
  ⟨RelKind.belongsTo, "author", "Review", "User", ⟨none, none⟩⟩

/-- The witness world: `Book` has `authorsRelation` and `reviewsRelation`;
`Review` has only `authorRelation` (no `authorsRelation`). -/
def wWorld : RelWorld := fun model key =>
  if model = "Book" then
    (if key = "authorsRelation" then some wAuthorsRel
     else if key = "reviewsRelation" then some wReviewsRel
     else none)
  else if model = "Review" then
    (if key = "authorRelation" then some wAuthorRel else none)
  else none

/-- A singularize stub agreeing with inflection on the witness names. -/
def wSing : String → String := fun s => if s = "authors" then "author" else s

theorem groupLookup_groupByInsert (ik : JsVal) (r : Obj)
    (acc : List (JsVal × List Obj)) (k : JsVal) :
    groupLookup (groupByInsert ik r acc) k =
      groupLookup acc k ++ (if ik = k then [r] else []) := by
  induction acc with
  | nil =>
    by_cases h : ik = k <;> simp [groupByInsert, groupLookup, h]
  | cons p rest ih =>
    obtain ⟨hk, hg⟩ := p
    by_cases hhead : hk = ik
    · subst hhead
      by_cases h : hk = k
      · subst h
        simp [groupByInsert, groupLookup]
      · simp [groupByInsert, groupLookup, h]
    · by_cases h : hk = k
      · subst h
        have hik : ¬ ik = hk := fun hh => hhead hh.symm
        simp [groupByInsert, hhead, groupLookup, hik]
      · have h1 : groupLookup ((hk, hg) :: groupByInsert ik r rest) k
            = groupLookup (groupByInsert ik r rest) k := by
          simp [groupLookup, h]
        have h2 : groupLookup ((hk, hg) :: rest) k = groupLookup rest k := by
          simp [groupLookup, h]
        simp only [groupByInsert, if_neg hhead, h1, h2, ih]

theorem groupLookup_groupBy_aux (f : Obj → JsVal) (l : List Obj)
    (acc : List (JsVal × List Obj)) (k : JsVal) :
    groupLookup (l.foldl (fun acc r => groupByInsert (f r) r acc) acc) k =
      groupLookup acc k ++ l.filter (fun r => f r = k) := by
  induction l generalizing acc with
  | nil => simp
  | cons r rest ih =>
    simp only [List.foldl_cons, ih, groupLookup_groupByInsert]
    by_cases h : f r = k
    · simp [h, List.filter_cons]
    · simp [h, List.filter_cons]

/-- Looking up a key in a lodash `groupBy` result returns exactly the
elements whose key matches, in input order. -/
theorem groupLookup_groupBy (f : Obj → JsVal) (l : List Obj) (k : JsVal) :
    groupLookup (groupBy f l) k = l.filter (fun r => f r = k) := by
  have h := groupLookup_groupBy_aux f l [] k
  simpa [groupBy, groupLookup] using h

/-- C9: belongs-to prefetch of an empty batch of owner instances returns
immediately: no query is executed and no instance is assigned anything. -/
theorem prefetch_empty_batch_no_query (primaryKey foreignKey : String)
    (exec : WhereClause → List Obj) :
    prefetch primaryKey foreignKey exec [] = ⟨[], []⟩ := rfl

/-- C2: for every non-empty batch, belongs-to prefetch executes exactly one
query built from the distinct non-null foreign keys of the batch — an
equality predicate on the related primary key when exactly one distinct
value remains, a `[in]` set-membership predicate otherwise — and afterwards
each owner instance is assigned exactly the returned rows whose primary-key
attribute matches its foreign key. -/
theorem prefetch_batch_one_query (primaryKey foreignKey : String)
    (exec : WhereClause → List Obj) (instances : List Obj)
    (h : instances ≠ []) :
    (prefetch primaryKey foreignKey exec instances).queries
        = [prefetchWhere primaryKey (prefetchFks foreignKey instances)] ∧
    (∀ v, prefetchFks foreignKey instances = [v] →
        prefetchWhere primaryKey (prefetchFks foreignKey instances)
          = ⟨primaryKey, WhereVal.single v⟩) ∧
    ((prefetchFks foreignKey instances).length ≠ 1 →
        prefetchWhere primaryKey (prefetchFks foreignKey instances)
          = ⟨primaryKey ++ "[in]",
              WhereVal.list (prefetchFks foreignKey instances)⟩) ∧
    (prefetch primaryKey foreignKey exec instances).assignments
        = instances.map (fun i =>
            (i, (exec (prefetchWhere primaryKey
                   (prefetchFks foreignKey instances))).filter
                  (fun r => r.attr primaryKey = i.getAttribute foreignKey))) := by
  have hlen : ¬ instances.length = 0 := by
    simpa [List.length_eq_zero] using h
  refine ⟨?_, ?_, ?_, ?_⟩
  · simp [prefetch, hlen]
  · intro v hv
    simp [prefetchWhere, hv]
  · intro hn
    simp [prefetchWhere, hn]
  · simp [prefetch, hlen, groupLookup_groupBy, Obj.getAttribute]

theorem prefetch_batch_one_query_witness :
    ([wOwnerA, wOwnerB] : List Obj) ≠ [] ∧
    (prefetch "id" "author_id" wStore [wOwnerA, wOwnerB]).queries
      = [prefetchWhere "id" (prefetchFks "author_id" [wOwnerA, wOwnerB])] ∧
    prefetchWhere "id" (prefetchFks "author_id" [wOwnerA, wOwnerB])
      = ⟨"id[in]", WhereVal.list [JsVal.vint 7, JsVal.vint 9]⟩ :=
  ⟨by simp,
   (prefetch_batch_one_query "id" "author_id" wStore [wOwnerA, wOwnerB]
      (by simp)).1,
   by simp [prefetchWhere, prefetchFks, uniq, wOwnerA, wOwnerB, Obj.getAttribute]⟩

theorem splitChars_of_not_mem (sep : Char) (l : List Char) (h : sep ∉ l) :
    splitChars sep l = [l] := by
  induction l with
  | nil => rfl
  | cons c cs ih =>
    have hc : ¬ c = sep := by
      intro e
      exact h (by simp [e])
    have hcs : sep ∉ cs := fun hm => h (List.mem_cons_of_mem _ hm)
    simp [splitChars, hc, ih hcs]

theorem splitChars_append_sep (sep : Char) (l1 l2 : List Char)
    (h1 : sep ∉ l1) :
    splitChars sep (l1 ++ sep :: l2) = l1 :: splitChars sep l2 := by
  induction l1 with
  | nil => simp [splitChars]
  | cons c cs ih =>
    have hc : ¬ c = sep := by
      intro e
      exact h1 (by simp [e])
    have hcs : sep ∉ cs := fun hm => h1 (List.mem_cons_of_mem _ hm)
    simp [splitChars, hc, ih hcs]

/-- Splitting a dotted key `relation ++ "." ++ attribute` recovers the two
parts when neither contains a dot. -/
theorem splitOnCharStr_dotted (n a : String)
    (hn : '.' ∉ n.toList) (ha : '.' ∉ a.toList) :
    splitOnCharStr '.' (n ++ "." ++ a) = [n, a] := by
  have hdata : (n ++ "." ++ a).toList = n.toList ++ '.' :: a.toList := by
    simp [String.toList, String.data_append]
  unfold splitOnCharStr
  rw [hdata, splitChars_append_sep _ _ _ hn, splitChars_of_not_mem _ _ ha]
  simp only [List.map_cons, List.map_nil, List.cons.injEq, and_true]
  exact ⟨String.asString_toList n, String.asString_toList a⟩

/-- C3: an explicit `join(name)` and the implicit join triggered by a
relation-qualified `where` key produce identical join lists, hence
syntactically identical join SQL; concretely, for the `employee` self-join
model, `.join('manager').where({id:1})` and `.where({'manager.id':1})`
compile to the SQL the test suite expects — same inner join clause — and
`'manager.pk'` resolves to the related primary-key column `id` on the
`manager` alias, giving the very same query as `'manager.id'`. -/
theorem join_explicit_implicit_same_sql :
    (∀ (env : ModelEnv) (q : QueryAst) (n a : String) (v : Int),
        '.' ∉ n.toList → '.' ∉ a.toList →
        (joinQ env q n).joins = (whereQ env q (n ++ "." ++ a) v).joins) ∧
    compileSQL employeeEnv (whereQ employeeEnv
        (joinQ employeeEnv emptyQuery "manager") "id" 1) =
      ("SELECT * FROM \"employees\" INNER JOIN \"employees\" \"manager\" " ++
       "ON \"employees\".\"manager_id\" = \"manager\".\"id\" " ++
       "WHERE \"employees\".\"id\" = ?", [1]) ∧
    compileSQL employeeEnv (whereQ employeeEnv emptyQuery "manager.id" 1) =
      ("SELECT * FROM \"employees\" INNER JOIN \"employees\" \"manager\" " ++
       "ON \"employees\".\"manager_id\" = \"manager\".\"id\" " ++
       "WHERE \"manager\".\"id\" = ?", [1]) ∧
    whereQ employeeEnv emptyQuery "manager.pk" 1 =
      whereQ employeeEnv emptyQuery "manager.id" 1 := by
  refine ⟨?_, by decide, by decide, by decide⟩
  intro env q n a v hn ha
  rw [whereQ, splitOnCharStr_dotted n a hn ha]
  cases hrel : lookupRel env n with
  | none => simp [joinQ, addJoin, hrel]
  | some rel => simp [joinQ, addJoin, hrel]

theorem join_explicit_implicit_same_sql_witness :
    ('.' ∉ ("manager" : String).toList) ∧ ('.' ∉ ("id" : String).toList) ∧
    (joinQ employeeEnv emptyQuery "manager").joins =
      (whereQ employeeEnv emptyQuery ("manager" ++ "." ++ "id") 1).joins :=
  ⟨by decide, by decide,
   join_explicit_implicit_same_sql.1 employeeEnv emptyQuery "manager" "id" 1
     (by decide) (by decide)⟩

/-- C6: saving an already-persisted owner with no dirty attributes and no
in-flight relation changes executes zero SQL statements and succeeds as a
no-op. -/
theorem noop_save_zero_sql (ownerTable relTable fkCol : String)
    (store : Stmt → Bool) (o : Owner)
    (hp : o.persisted = true) (hd : o.ownDirty = false)
    (hi : o.inFlight = none) :
    save ownerTable relTable fkCol store o = ⟨true, o, [], []⟩ := by
  simp [save, saveCascade, hp, hd, hi]

theorem noop_save_zero_sql_witness :
    (Owner.mk 395 false true none none).persisted = true ∧
    (Owner.mk 395 false true none none).ownDirty = false ∧
    (Owner.mk 395 false true none none).inFlight = none ∧
    save "users" "articles" "author_id" (fun _ => true)
        (Owner.mk 395 false true none none)
      = ⟨true, Owner.mk 395 false true none none, [], []⟩ :=
  ⟨rfl, rfl, rfl,
   noop_save_zero_sql "users" "articles" "author_id" (fun _ => true)
     (Owner.mk 395 false true none none) rfl rfl rfl⟩

/-- C1: when the store write for the pending add of a cascade fails, the
in-flight change set is left intact and the added instance stays dirty; a
retried `save()` against an accepting store then re-attempts exactly the
still-pending operation: afterwards the in-flight set is absent, the added
instance is clean, and the SQL executed on the retry is exactly the one
update setting the added instance's foreign key to the owner's primary
key. -/
theorem failed_cascade_retry (ownerTable relTable fkCol : String)
    (store1 store2 : Stmt → Bool) (o : Owner) (a : Related)
    (hp : o.persisted = true) (hd : o.ownDirty = false)
    (hi : o.inFlight = some ⟨[a], []⟩) (ha : a.dirty = true)
    (hfail : ∀ s, store1 s = false) (hok : ∀ s, store2 s = true) :
    (save ownerTable relTable fkCol store1 o).ok = false ∧
    (save ownerTable relTable fkCol store1 o).owner.inFlight
      = some ⟨[a], []⟩ ∧
    (save ownerTable relTable fkCol store1 o).related = [a] ∧
    (∀ x ∈ (save ownerTable relTable fkCol store1 o).related,
      x.dirty = true) ∧
    (save ownerTable relTable fkCol store2
        (save ownerTable relTable fkCol store1 o).owner).ok = true ∧
    (save ownerTable relTable fkCol store2
        (save ownerTable relTable fkCol store1 o).owner).owner.inFlight
      = none ∧
    (save ownerTable relTable fkCol store2
        (save ownerTable relTable fkCol store1 o).owner).related
      = [{ a with fkVal := JsVal.vint o.pk, dirty := false }] ∧
    (save ownerTable relTable fkCol store2
        (save ownerTable relTable fkCol store1 o).owner).executed
      = [Stmt.fkUpdate relTable fkCol (JsVal.vint o.pk) a.pk] := by
  have h1 : save ownerTable relTable fkCol store1 o
      = ⟨false, o, [a], [Stmt.fkUpdate relTable fkCol (JsVal.vint o.pk) a.pk]⟩ := by
    simp [save, saveCascade, attemptAdds, hp, hd, hi, hfail]
  have h2 : save ownerTable relTable fkCol store2 o
      = ⟨true, { o with inFlight := none },
          [{ a with fkVal := JsVal.vint o.pk, dirty := false }],
          [Stmt.fkUpdate relTable fkCol (JsVal.vint o.pk) a.pk]⟩ := by
    simp [save, saveCascade, attemptAdds, attemptRemoves, hp, hd, hi, hok]
  refine ⟨by simp [h1], by simp [h1, hi], by simp [h1], ?_, ?_, ?_, ?_, ?_⟩
  · intro x hx
    rw [h1] at hx
    simp at hx
    rw [hx]
    exact ha
  · simp [h1, h2]
  · simp [h1, h2]
  · simp [h1, h2]
  · simp [h1, h2]

theorem failed_cascade_retry_witness :
    ((Owner.mk 395 false true (some ⟨[⟨828, JsVal.vint 395, true⟩], []⟩)
        none).persisted = true) ∧
    ((Related.mk 828 (JsVal.vint 395) true).dirty = true) ∧
    (save "users" "articles" "author_id" (fun _ => true)
        (save "users" "articles" "author_id" (fun _ => false)
          (Owner.mk 395 false true
            (some ⟨[⟨828, JsVal.vint 395, true⟩], []⟩) none)).owner).executed
      = [Stmt.fkUpdate "articles" "author_id" (JsVal.vint 395) 828] ∧
    (Stmt.fkUpdate "articles" "author_id" (JsVal.vint 395) 828).sql
      = ("UPDATE \"articles\" SET \"author_id\" = ? WHERE \"id\" = ?",
         [JsVal.vint 395, JsVal.vint 828]) :=
  ⟨rfl, rfl,
   (failed_cascade_retry "users" "articles" "author_id"
      (fun _ => false) (fun _ => true)
      (Owner.mk 395 false true (some ⟨[⟨828, JsVal.vint 395, true⟩], []⟩) none)
      ⟨828, JsVal.vint 395, true⟩ rfl rfl rfl rfl
      (fun _ => rfl) (fun _ => rfl)).2.2.2.2.2.2.2,
   by decide⟩

/-- C7: a manually-dirtied related instance sitting in the owner's loaded
collection cache is never written by saving the owner — the owner's save
executes zero statements — and is persisted exactly when saved directly. -/
theorem dirty_collection_member_needs_direct_save
    (ownerTable relTable fkCol : String) (store store2 : Stmt → Bool)
    (o : Owner) (l : List Related) (r : Related)
    (hp : o.persisted = true) (hd : o.ownDirty = false)
    (hi : o.inFlight = none) (hc : o.cache = some l)
    (hm : r ∈ l) (hr : r.dirty = true) (hok : ∀ s, store2 s = true) :
    (save ownerTable relTable fkCol store o).executed = [] ∧
    saveRelated relTable store2 r
      = (true, { r with dirty := false }, [Stmt.updateRelated relTable r.pk]) := by
  constructor
  · simp [save, saveCascade, hp, hd, hi]
  · simp [saveRelated, hr, hok]

theorem dirty_collection_member_needs_direct_save_witness :
    ((Owner.mk 395 false true none
        (some [⟨1, JsVal.vint 395, true⟩])).cache
      = some [⟨1, JsVal.vint 395, true⟩]) ∧
    ((Related.mk 1 (JsVal.vint 395) true) ∈ [Related.mk 1 (JsVal.vint 395) true]) ∧
    (save "users" "articles" "author_id" (fun _ => true)
        (Owner.mk 395 false true none
          (some [⟨1, JsVal.vint 395, true⟩]))).executed = [] ∧
    saveRelated "articles" (fun _ => true) (Related.mk 1 (JsVal.vint 395) true)
      = (true, Related.mk 1 (JsVal.vint 395) false,
         [Stmt.updateRelated "articles" 1]) :=
  ⟨rfl, by decide,
   (dirty_collection_member_needs_direct_save "users" "articles" "author_id"
      (fun _ => true) (fun _ => true)
      (Owner.mk 395 false true none (some [⟨1, JsVal.vint 395, true⟩]))
      [⟨1, JsVal.vint 395, true⟩] ⟨1, JsVal.vint 395, true⟩
      rfl rfl rfl rfl (by decide) rfl (fun _ => rfl)).1,
   (dirty_collection_member_needs_direct_save "users" "articles" "author_id"
      (fun _ => true) (fun _ => true)
      (Owner.mk 395 false true none (some [⟨1, JsVal.vint 395, true⟩]))
      [⟨1, JsVal.vint 395, true⟩] ⟨1, JsVal.vint 395, true⟩
      rfl rfl rfl rfl (by decide) rfl (fun _ => rfl)).2⟩

/-- C4: reading a to-many collection cache before any load or mutation
raises a StateError synchronously and issues no query; after an `add` or a
`create` on the yet-unloaded relation, the cache read succeeds and contains
exactly the added or created instance. -/
theorem unloaded_collection_read_state_error (o : Owner) (a : Related)
    (newPk : Int) (h : o.cache = none) :
    readCollection o
      = ⟨[], ReadResult.stateError "articles collection is not yet loaded"⟩ ∧
    readCollection (addArticle o a).1
      = ⟨[], ReadResult.loaded [(addArticle o a).2]⟩ ∧
    readCollection (createArticle o newPk).1
      = ⟨[], ReadResult.loaded [(createArticle o newPk).2]⟩ := by
  refine ⟨?_, ?_, ?_⟩ <;> simp [readCollection, addArticle, createArticle, h]

theorem unloaded_collection_read_state_error_witness :
    ((Owner.mk 395 false true none none).cache = none) ∧
    readCollection (Owner.mk 395 false true none none)
      = ⟨[], ReadResult.stateError "articles collection is not yet loaded"⟩ ∧
    readCollection (addArticle (Owner.mk 395 false true none none)
        ⟨828, JsVal.vundef, false⟩).1
      = ⟨[], ReadResult.loaded
          [(addArticle (Owner.mk 395 false true none none)
              ⟨828, JsVal.vundef, false⟩).2]⟩ :=
  ⟨rfl,
   (unloaded_collection_read_state_error (Owner.mk 395 false true none none)
      ⟨828, JsVal.vundef, false⟩ 1 rfl).1,
   (unloaded_collection_read_state_error (Owner.mk 395 false true none none)
      ⟨828, JsVal.vundef, false⟩ 1 rfl).2.1⟩

/-- C5: on both sides of an inverse belongs-to/has-many pair, associate and
disassociate set (or clear) the foreign key on the foreign-key-holding
instance exactly once, strictly before the single notification of the other
side's relation. -/
theorem associate_sets_fk_before_inverse (fkAttr : String) (v : JsVal) :
    fkSetBeforeInverse (belongsToAssociateTrace fkAttr v) ∧
    fkSetBeforeInverse (belongsToDisassociateTrace fkAttr) ∧
    fkSetBeforeInverse (hasManyAssociateTrace fkAttr v) ∧
    fkSetBeforeInverse (hasManyDisassociateTrace fkAttr) := by
  refine ⟨?_, ?_, ?_, ?_⟩ <;>
    simp [fkSetBeforeInverse, belongsToAssociateTrace,
      belongsToDisassociateTrace, hasManyAssociateTrace,
      hasManyDisassociateTrace, AssocEv.isSetAttr, AssocEv.isInverseNotify,
      List.countP_cons, List.findIdx_cons]

/-- C8: declaring a has-many with a `through` option naming something that
exists on the declaring model neither as a relation nor as a property
auto-declares a has-many relation under that name on the declaring model. -/
theorem through_auto_declares_hasMany (sing : String → String)
    (modelName : String) (opts : RelOptions) (m : ModelClassState)
    (t : String) (ht : opts.through = some t)
    (hr : m.prototype (t ++ "Relation") = none)
    (hp : m.properties t = false) :
    (hasManyThroughInit sing modelName opts m).prototype (t ++ "Relation")
      = some (autoHasMany sing modelName t) ∧
    (autoHasMany sing modelName t).kind = RelKind.hasMany ∧
    (autoHasMany sing modelName t).name = t ∧
    (autoHasMany sing modelName t).modelClass = modelName := by
  refine ⟨?_, rfl, rfl, rfl⟩
  simp [hasManyThroughInit, ht, hr, hp]

theorem through_auto_declares_hasMany_witness :
    ((RelOptions.mk (some "authorships") none).through = some "authorships") ∧
    (emptyModelClass.prototype ("authorships" ++ "Relation") = none) ∧
    (emptyModelClass.properties "authorships" = false) ∧
    (hasManyThroughInit (fun s => s) "Book"
        (RelOptions.mk (some "authorships") none)
        emptyModelClass).prototype ("authorships" ++ "Relation")
      = some (autoHasMany (fun s => s) "Book" "authorships") :=
  ⟨rfl, rfl, rfl,
   (through_auto_declares_hasMany (fun s => s) "Book"
      (RelOptions.mk (some "authorships") none) emptyModelClass
      "authorships" rfl rfl rfl).1⟩

/-- C10: while resolving a through chain, (i) a through relation whose
`through` names another through relation on the same model is followed as
an alias, contributing no element of its own to the chain, and the source
relation on the next related model is looked up (ii) first under the source
name as given and, (iii) only when that is absent, under its singularized
form. -/
theorem throughRelations_source_name_fallback (w : RelWorld)
    (sing : String → String) (sourceName : String) (fuel : Nat)
    (rel tr : RelDescr) (acc : List RelDescr) (t : String)
    (ht : rel.opts.through = some t)
    (hw : w rel.modelClass (t ++ "Relation") = some tr) :
    (tr.opts.through.isSome = true →
      throughRelationsAux w sing sourceName (fuel + 1) rel acc
        = throughRelationsAux w sing sourceName fuel tr acc) ∧
    (∀ r, tr.opts.through = none →
      w tr.relatedModel (sourceName ++ "Relation") = some r →
      throughRelationsAux w sing sourceName (fuel + 1) rel acc
        = throughRelationsAux w sing sourceName fuel r (tr :: acc)) ∧
    (∀ r, tr.opts.through = none →
      w tr.relatedModel (sourceName ++ "Relation") = none →
      w tr.relatedModel (sing sourceName ++ "Relation") = some r →
      throughRelationsAux w sing sourceName (fuel + 1) rel acc
        = throughRelationsAux w sing sourceName fuel r (tr :: acc)) := by
  refine ⟨?_, ?_, ?_⟩
  · intro halias
    simp [throughRelationsAux, ht, hw, halias]
  · intro r hnone hsrc
    simp [throughRelationsAux, ht, hw, hnone, hsrc]
  · intro r hnone hmiss hsing
    simp [throughRelationsAux, ht, hw, hnone, hmiss, hsing]

theorem throughRelations_source_name_fallback_witness :
    (wAuthorsRel.opts.through = some "reviews") ∧
    (wWorld wAuthorsRel.modelClass ("reviews" ++ "Relation") = some wReviewsRel) ∧
    (wReviewsRel.opts.through = none) ∧
    (wWorld wReviewsRel.relatedModel ("authors" ++ "Relation") = none) ∧
    (wWorld wReviewsRel.relatedModel (wSing "authors" ++ "Relation")
      = some wAuthorRel) ∧
    throughRelationsAux wWorld wSing "authors" 2 wAuthorsRel []
      = throughRelationsAux wWorld wSing "authors" 1 wAuthorRel [wReviewsRel] ∧
    throughRelations wWorld wSing 2 wAuthorsRel
      = some [wAuthorRel, wReviewsRel] :=
  ⟨rfl, by decide, rfl, by decide, by decide,
   (throughRelations_source_name_fallback wWorld wSing "authors" 1
      wAuthorsRel wReviewsRel [] "reviews" rfl (by decide)).2.2 wAuthorRel
      rfl (by decide) (by decide),
   by decide⟩
